import Mathlib

/-!
Verification of the todo-lib crate (todo.txt record model and codec).

Definitions below are a shallow embedding of the Rust source:
strings are lists of characters, the ambient wall clock is lifted to an
explicit `DateTime` parameter, and each function mirrors the corresponding
item in `src/lib.rs` (the self-contained crate in the repository); where a
claim also cites the modular files (`priority.rs`, `due.rs`, `table.rs`),
the divergences are modelled separately and named `...New`.
-/

set_option maxRecDepth 4096

deriving instance DecidableEq for Except

/-- Character classifier modelling Rust `char::is_whitespace` on the ASCII
range (the only characters the inputs under test contain). -/
def isWhite (c : Char) : Bool :=
  c = ' ' || c = '\t' || c = '\n' || c = '\r' || c = '\x0b' || c = '\x0c'

/-- Models Rust `str::starts_with('(')`-style single-character checks. -/
def startsWithChar : List Char → Char → Bool
  | [], _ => false
  | c :: _, d => c = d

/-- Models Rust `str::ends_with(')')`-style single-character checks. -/
def endsWithChar (l : List Char) (d : Char) : Bool :=
  match l.getLast? with
  | some c => c = d
  | none => false

/-- Models the `s.starts_with("x ")` check at the top of `Todo::from_str`. -/
def startsWithXSpace : List Char → Bool
  | 'x' :: ' ' :: _ => true
  | _ => false

/-- Models Rust `str::trim` (whitespace stripped from both ends). -/
def trimL (l : List Char) : List Char :=
  ((l.dropWhile isWhite).reverse.dropWhile isWhite).reverse

/-- Models Rust `s.split(' ')`: split on single spaces, keeping empty pieces. -/
def splitSpaces : List Char → List (List Char)
  | [] => [[]]
  | ' ' :: rest => [] :: splitSpaces rest
  | c :: rest =>
    match splitSpaces rest with
    | t :: ts => (c :: t) :: ts
    | [] => [[c]]

/-- Calendar date, modelling `datetime::LocalDate` (a year/month/day triple). -/
structure Date where
  year : Nat
  month : Nat
  day : Nat
deriving DecidableEq, Repr

/-- Time of day, modelling `datetime::LocalTime` at second granularity. -/
structure Time where
  hour : Nat
  minute : Nat
  second : Nat
deriving DecidableEq, Repr

/-- A wall-clock instant, modelling `datetime::LocalDateTime`; the source
reads it ambiently via `today()` / `now()`, here it is passed explicitly. -/
structure DateTime where
  date : Date
  time : Time
deriving DecidableEq, Repr

/-- Lexicographic date order, modelling `LocalDate`'s `<=`. -/
def Date.leB (x y : Date) : Bool :=
  decide (x.year < y.year ∨ (x.year = y.year ∧
    (x.month < y.month ∨ (x.month = y.month ∧ x.day ≤ y.day))))

/-- Strict lexicographic date order, modelling `LocalDate`'s `<`. -/
def Date.ltB (x y : Date) : Bool :=
  decide (x.year < y.year ∨ (x.year = y.year ∧
    (x.month < y.month ∨ (x.month = y.month ∧ x.day < y.day))))

/-- Lexicographic time order, modelling `LocalTime`'s `<=`. -/
def Time.leB (x y : Time) : Bool :=
  decide (x.hour < y.hour ∨ (x.hour = y.hour ∧
    (x.minute < y.minute ∨ (x.minute = y.minute ∧ x.second ≤ y.second))))

/-- Lexicographic order on instants, modelling `LocalDateTime`'s `<=`. -/
def DateTime.leB (x y : DateTime) : Bool :=
  Date.ltB x.date y.date || (decide (x.date = y.date) && Time.leB x.time y.time)

/-- Gregorian leap-year rule (used by calendar validation). -/
def leapYear (y : Nat) : Bool :=
  y % 4 = 0 && (y % 100 ≠ 0 || y % 400 = 0)

/-- Number of days in a month, as validated by `datetime::LocalDate::ymd`. -/
def daysInMonth (y m : Nat) : Nat :=
  if m = 2 then (if leapYear y then 29 else 28)
  else if m = 4 ∨ m = 6 ∨ m = 9 ∨ m = 11 then 30
  else 31

/-- Numeric value of a decimal digit character. -/
def digitVal (c : Char) : Nat := c.toNat - 48

/-- Models `LocalDate::from_str` restricted to the calendar-date form the
records under test use: exactly `YYYY-MM-DD` with calendar validation;
anything else is rejected. -/
def parseDate : List Char → Option Date
  | [a, b, c, d, '-', e, f, '-', g, k] =>
    if a.isDigit && b.isDigit && c.isDigit && d.isDigit &&
       e.isDigit && f.isDigit && g.isDigit && k.isDigit then
      let y := ((digitVal a * 10 + digitVal b) * 10 + digitVal c) * 10 + digitVal d
      let m := digitVal e * 10 + digitVal f
      let dy := digitVal g * 10 + digitVal k
      if 1 ≤ m ∧ m ≤ 12 ∧ 1 ≤ dy ∧ dy ≤ daysInMonth y m then
        some ⟨y, m, dy⟩
      else none
    else none
  | _ => none

/-- The calendar day after `d` (spec-side arithmetic used only to state
"one day in the future / past" in the due-predicate claims). -/
def tomorrow (d : Date) : Date :=
  if d.day < daysInMonth d.year d.month then ⟨d.year, d.month, d.day + 1⟩
  else if d.month < 12 then ⟨d.year, d.month + 1, 1⟩
  else ⟨d.year + 1, 1, 1⟩

/-- The error type of `TryFrom<&str> for TodoPriority` (identical in
`lib.rs` and `error.rs`). -/
inductive InvalidPriorityError where
  | MissingParens
  | InvalidPriority
deriving DecidableEq, Repr

/-- The error type of `Todo::from_str` (identical in `lib.rs` and
`error.rs`). -/
inductive TodoParseError where
  | BadDate
  | BadPriority
deriving DecidableEq, Repr

/-- The 27-variant priority scale, shared by `lib.rs` and `priority.rs`
(they list the same constructors in opposite orders; the two derived
orders are modelled by `priorityRank` and `priorityRankNew` below). -/
inductive TodoPriority where
  | None
  | A | B | C | D | E | F | G | H | I | J | K | L | M
  | N | O | P | Q | R | S | T | U | V | W | X | Y | Z
deriving DecidableEq, Repr

/-- Discriminant of `TodoPriority` as declared in the monolithic
`src/lib.rs`: `None, A, B, ..., Z`.  Rust's derived `Ord` compares these
discriminants, so `p < q` there is `priorityRank p < priorityRank q`. -/
def priorityRank : TodoPriority → Nat
  | .None => 0
  | .A => 1 | .B => 2 | .C => 3 | .D => 4 | .E => 5 | .F => 6 | .G => 7
  | .H => 8 | .I => 9 | .J => 10 | .K => 11 | .L => 12 | .M => 13
  | .N => 14 | .O => 15 | .P => 16 | .Q => 17 | .R => 18 | .S => 19
  | .T => 20 | .U => 21 | .V => 22 | .W => 23 | .X => 24 | .Y => 25
  | .Z => 26

/-- Discriminant of `TodoPriority` as declared in the modular
`src/priority.rs`: `None, Z, Y, ..., A` (so `A` has the largest
discriminant there). -/
def priorityRankNew : TodoPriority → Nat
  | .None => 0
  | .Z => 1 | .Y => 2 | .X => 3 | .W => 4 | .V => 5 | .U => 6 | .T => 7
  | .S => 8 | .R => 9 | .Q => 10 | .P => 11 | .O => 12 | .N => 13
  | .M => 14 | .L => 15 | .K => 16 | .J => 17 | .I => 18 | .H => 19
  | .G => 20 | .F => 21 | .E => 22 | .D => 23 | .C => 24 | .B => 25
  | .A => 26

/-- The 26 priority ranks in alphabetical order (statement-side list). -/
def alphabet : List TodoPriority :=
  [.A, .B, .C, .D, .E, .F, .G, .H, .I, .J, .K, .L, .M,
   .N, .O, .P, .Q, .R, .S, .T, .U, .V, .W, .X, .Y, .Z]

/-- The 26 literal arms of the `match value` in
`TryFrom<&str> for TodoPriority`, as a token table. -/
def priorityTable : List (List Char × TodoPriority) :=
  [("(A)".data, .A), ("(B)".data, .B), ("(C)".data, .C), ("(D)".data, .D),
   ("(E)".data, .E), ("(F)".data, .F), ("(G)".data, .G), ("(H)".data, .H),
   ("(I)".data, .I), ("(J)".data, .J), ("(K)".data, .K), ("(L)".data, .L),
   ("(M)".data, .M), ("(N)".data, .N), ("(O)".data, .O), ("(P)".data, .P),
   ("(Q)".data, .Q), ("(R)".data, .R), ("(S)".data, .S), ("(T)".data, .T),
   ("(U)".data, .U), ("(V)".data, .V), ("(W)".data, .W), ("(X)".data, .X),
   ("(Y)".data, .Y), ("(Z)".data, .Z)]

/-- First-match association lookup over the priority token table. -/
def assocTok : List (List Char × TodoPriority) → List Char → Option TodoPriority
  | [], _ => none
  | (k, v) :: rest, t => if k = t then some v else assocTok rest t

/-- Models `TryFrom<&str> for TodoPriority` (identical in `lib.rs` and
`priority.rs`): reject tokens not wrapped in parentheses with
`MissingParens`, then match the token against the 26 literals. -/
def tryFromPriority (t : List Char) : Except InvalidPriorityError TodoPriority :=
  if startsWithChar t '(' && endsWithChar t ')' then
    match assocTok priorityTable t with
    | some p => Except.ok p
    | none => Except.error InvalidPriorityError.InvalidPriority
  else Except.error InvalidPriorityError.MissingParens

/-- Models `Display for TodoPriority` in `lib.rs`: `None` prints nothing,
a rank prints `"(X) "` with a trailing space. -/
def priorityDisplay : TodoPriority → List Char
  | .None => []
  | .A => "(A) ".data | .B => "(B) ".data | .C => "(C) ".data
  | .D => "(D) ".data | .E => "(E) ".data | .F => "(F) ".data
  | .G => "(G) ".data | .H => "(H) ".data | .I => "(I) ".data
  | .J => "(J) ".data | .K => "(K) ".data | .L => "(L) ".data
  | .M => "(M) ".data | .N => "(N) ".data | .O => "(O) ".data
  | .P => "(P) ".data | .Q => "(Q) ".data | .R => "(R) ".data
  | .S => "(S) ".data | .T => "(T) ".data | .U => "(U) ".data
  | .V => "(V) ".data | .W => "(W) ".data | .X => "(X) ".data
  | .Y => "(Y) ".data | .Z => "(Z) ".data

/-- A project or context tag, modelling `TodoTag`. -/
inductive TodoTag where
  | Project (t : List Char)
  | Context (t : List Char)
deriving DecidableEq, Repr

/-- The due-date union of the monolithic `lib.rs` (`Never`, `Always`,
`Daily`, `Day`, `Instant`). -/
inductive TodoDate where
  | Never
  | Always
  | Daily (t : Time)
  | Day (d : Date)
  | Instant (t : DateTime)
deriving DecidableEq, Repr

/-- Models `impl IsDue for TodoDate` in `lib.rs`, with the ambient clock
reads (`LocalDate::today()`, `LocalDateTime::now()`) lifted to the
explicit argument `now`.  All comparisons are non-strict; `Day` compares
calendar days only; `Daily` compares against now truncated to minutes. -/
def TodoDate.due (d : TodoDate) (now : DateTime) : Bool :=
  match d with
  | .Never => false
  | .Always => true
  | .Daily t => Time.leB t ⟨now.time.hour, now.time.minute, 0⟩
  | .Day t => Date.leB t now.date
  | .Instant t => DateTime.leB t now

/-- The insertion-ordered string map of `lib.rs` (`Map<K, V>`), a vector
of key/value pairs. -/
structure TMap where
  data : List (List Char × List Char)
deriving DecidableEq, Repr

/-- Models `Map::get`: first pair with a matching key. -/
def TMap.get (m : TMap) (k : List Char) : Option (List Char) :=
  (m.data.find? (fun kv => kv.1 == k)).map (fun kv => kv.2)

/-- Helper for `Map::insert`: overwrite the value of the first matching
key in place, else push the pair at the end. -/
def insertPairsAux (k v : List Char) :
    List (List Char × List Char) → List (List Char × List Char)
  | [] => [(k, v)]
  | (a, b) :: rest =>
    if a = k then (a, v) :: rest else (a, b) :: insertPairsAux k v rest

/-- Models `Map::insert`. -/
def TMap.insert (m : TMap) (k v : List Char) : TMap :=
  ⟨insertPairsAux k v m.data⟩

/-- Helper for `Map::remove`: the source loop records the index of the
last pair whose key matches. -/
def lastKeyIdx (k : List Char) :
    List (List Char × List Char) → Nat → Option Nat → Option Nat
  | [], _, acc => acc
  | (a, _) :: rest, i, acc =>
    lastKeyIdx k rest (i + 1) (if a = k then some i else acc)

/-- Models `Map::remove`: erase the last matching pair, if any. -/
def TMap.remove (m : TMap) (k : List Char) : TMap :=
  match lastKeyIdx k m.data 0 none with
  | some i => ⟨m.data.eraseIdx i⟩
  | none => ⟨m.data⟩

/-- Models `Display for Map` in `lib.rs`: each pair prints as
`" key:value"` with a leading space. -/
def mapDisplay (m : TMap) : List Char :=
  m.data.foldl (fun acc kv => acc ++ ' ' :: (kv.1 ++ ':' :: kv.2)) []

/-- The todo record of the monolithic `lib.rs`. -/
structure Todo where
  title : List Char
  completed : Bool
  priority : TodoPriority
  metadata : TMap
  deadline : TodoDate
  created : Option Date
  completion_date : Option Date
deriving DecidableEq, Repr

/-- Models `impl IsDue for Todo`: due unless already complete. -/
def Todo.due (t : Todo) (now : DateTime) : Bool :=
  !t.completed && t.deadline.due now

/-- Decimal digits of a number (used by the `Display` implementations). -/
def natChars (n : Nat) : List Char := Nat.toDigits 10 n

/-- Zero-padded decimal, modelling `format!("{:0w}")`. -/
def padNum (w n : Nat) : List Char :=
  let ds := Nat.toDigits 10 n
  List.replicate (w - ds.length) '0' ++ ds

/-- The `{:04}-{:02}-{:02} ` date layout of `Display for Todo`
(without the trailing space). -/
def dateChars4 (d : Date) : List Char :=
  padNum 4 d.year ++ '-' :: (padNum 2 d.month ++ '-' :: padNum 2 d.day)

/-- Models `Display for TodoDate` in `lib.rs`; note the `Day` year is
printed unpadded (`{}`), matching the source. -/
def todoDateDisplay : TodoDate → List Char
  | .Never => []
  | .Always => "due:0000-00-00".data
  | .Daily t =>
    "due:".data ++ natChars t.hour ++ ':' ::
      (natChars t.minute ++ ':' :: (natChars t.second ++ " rec:daily".data))
  | .Day d =>
    "due:".data ++ natChars d.year ++ '-' ::
      (padNum 2 d.month ++ '-' :: padNum 2 d.day)
  | .Instant t =>
    "due: ".data ++ natChars t.date.year ++ '-' ::
      (padNum 2 t.date.month ++ '-' :: (padNum 2 t.date.day ++ '_' ::
        (natChars t.time.hour ++ ':' ::
          (natChars t.time.minute ++ ':' :: natChars t.time.second))))

/-- Models `Display for Todo` in `lib.rs`: concatenate tick, priority,
completion date (only when a creation date is also present), creation
date, title, a space, the deadline and the metadata, then trim. -/
def todoDisplay (t : Todo) : List Char :=
  let tick := if t.completed then "x ".data else []
  let pri := priorityDisplay t.priority
  let completion :=
    match t.completion_date, t.created with
    | some cd, some _ => dateChars4 cd ++ [' ']
    | _, _ => []
  let creation :=
    match t.created with
    | some c => dateChars4 c ++ [' ']
    | none => []
  trimL (tick ++ pri ++ completion ++ creation ++ t.title ++ ' ' ::
    (todoDateDisplay t.deadline ++ mapDisplay t.metadata))

/-- The accumulator of the token loop in `Todo::from_str`. -/
structure PState where
  created : Option Date
  compl : Option Date
  priority : TodoPriority
  descr : List Char
  metadata : TMap
deriving DecidableEq, Repr

/-- The initial loop state of `Todo::from_str`: note `description`
starts as the one-space string `" "`. -/
def initPState : PState :=
  ⟨none, none, .None, [' '], ⟨[]⟩⟩

/-- One non-priority token of the `Todo::from_str` loop: a parsed date
shifts `created` into `completed` (`std::mem::replace`); a single-colon
token becomes metadata; any other non-blank token extends the
description. -/
def stepNonPriority (p : List Char) (st : PState) : PState :=
  match parseDate p with
  | some date => { st with compl := st.created, created := some date }
  | none =>
    if p.count ':' = 1 then
      { st with metadata :=
          (st.metadata.insert (p.takeWhile (fun c => c != ':'))
            ((p.dropWhile (fun c => c != ':')).drop 1)) }
    else if !p.isEmpty && !(p.all isWhite) then
      { st with descr := st.descr ++ ' ' :: trimL p }
    else st

/-- The token loop of `Todo::from_str`: a token that decodes as a
priority sets it; a parenthesized-but-invalid one aborts with
`BadPriority`; everything else goes through `stepNonPriority`. -/
def parseParts : List (List Char) → PState → Except TodoParseError PState
  | [], st => Except.ok st
  | p :: rest, st =>
    match tryFromPriority p with
    | Except.ok pr => parseParts rest { st with priority := pr }
    | Except.error InvalidPriorityError.InvalidPriority =>
      Except.error TodoParseError.BadPriority
    | Except.error InvalidPriorityError.MissingParens =>
      parseParts rest (stepNonPriority p st)

/-- The token stream `Todo::from_str` iterates over: the space-split of
the line, with the leading token consumed when the line starts `"x "`. -/
def partsOf (s : List Char) : List (List Char) :=
  if startsWithXSpace s then (splitSpaces s).drop 1 else splitSpaces s

/-- The post-loop `due` resolution of `Todo::from_str`: if the metadata
holds a `due` key whose value parses as a date, consume it into a `Day`
deadline; otherwise leave the metadata untouched and the deadline
`Never`. -/
def resolveDue (m : TMap) : TMap × TodoDate :=
  match m.get ("due".data) with
  | some v =>
    match parseDate v with
    | some d => (m.remove ("due".data), TodoDate.Day d)
    | none => (m, TodoDate.Never)
  | none => (m, TodoDate.Never)

/-- Models `Todo::from_str` in `lib.rs`. -/
def fromStrL (s : List Char) : Except TodoParseError Todo :=
  match parseParts (partsOf s) initPState with
  | Except.error e => Except.error e
  | Except.ok st =>
    Except.ok
      { title := trimL st.descr,
        completed := startsWithXSpace s,
        priority := st.priority,
        metadata := (resolveDue st.metadata).1,
        deadline := (resolveDue st.metadata).2,
        created := st.created,
        completion_date := st.compl }

/-- String-level wrapper of `fromStrL`. -/
def fromStrS (s : String) : Except TodoParseError Todo :=
  fromStrL s.data

/-- String-level wrapper of `todoDisplay`. -/
def displayS (t : Todo) : String :=
  ⟨todoDisplay t⟩

/-- The date tokens of a line, in order: the tokens of the parser's
stream that parse as calendar dates. -/
def datesOf (s : List Char) : List Date :=
  (partsOf s).filterMap parseDate

/-- Statement-side recursion describing how the date tokens move through
the `created`/`completed` pair of the loop (each new date shifts the old
`created` into `completed`). -/
def shiftDates : Option Date × Option Date → List Date → Option Date × Option Date
  | st, [] => st
  | (c, _), d :: ds => shiftDates (some d, c) ds

/-- The scan state of `Todo::tags` (`set`, `tag`, `in_project_tag`,
`in_context_tag`, `last_char`).  The `HashSet` is modelled as a
duplicate-free list in insertion order. -/
structure TagScanState where
  set : List TodoTag
  tag : List Char
  inProject : Bool
  inContext : Bool
  last : Char
deriving DecidableEq, Repr

/-- Set-semantics insertion for the modelled `HashSet`. -/
def insertTag (s : List TodoTag) (t : TodoTag) : List TodoTag :=
  if t ∈ s then s else s ++ [t]

/-- One character of the `Todo::tags` loop. -/
def tagStep (st : TagScanState) (ch : Char) : TagScanState :=
  if ch = '+' ∧ st.last = ' ' then
    { st with inProject := true, inContext := false, last := ch }
  else if ch = '@' ∧ st.last = ' ' then
    { st with inProject := false, inContext := true, last := ch }
  else if (st.inProject ∨ st.inContext) ∧ isWhite ch = false then
    { st with tag := st.tag ++ [ch], last := ch }
  else if (st.inProject ∨ st.inContext) ∧ isWhite ch = true then
    { st with
        set := insertTag st.set
          (if st.inProject then TodoTag.Project st.tag else TodoTag.Context st.tag),
        tag := [], inProject := false, inContext := false, last := ch }
  else { st with last := ch }

/-- The initial state of the `Todo::tags` loop (`last_char` starts `' '`). -/
def tagScanInit : TagScanState := ⟨[], [], false, false, ' '⟩

/-- Models `Todo::tags` on a title: run the scan and return the set;
note the source performs no end-of-string flush. -/
def tagsL (title : List Char) : List TodoTag :=
  (title.foldl tagStep tagScanInit).set

/-- The scan state of `Todo::has_tag_raw`; `found` latches the source's
early `return true`. -/
structure HtState where
  found : Bool
  tag : List Char
  inTag : Bool
  last : Char
deriving DecidableEq, Repr

/-- One character of the `Todo::has_tag_raw` loop. -/
def htStep (start : Char) (target : List Char) (st : HtState) (ch : Char) : HtState :=
  if st.found then st
  else if ch = start ∧ st.last = ' ' then { st with inTag := true, last := ch }
  else if st.inTag ∧ isWhite ch = false then
    { st with tag := st.tag ++ [ch], last := ch }
  else if st.inTag ∧ isWhite ch = true then
    if st.tag = target then { st with found := true }
    else { st with inTag := false, tag := [], last := ch }
  else { st with last := ch }

/-- Models `Todo::has_tag_raw`: scan the title and also compare the
leftover tag after the loop, as the source does. -/
def hasTagRaw (start : Char) (target title : List Char) : Bool :=
  let st := title.foldl (htStep start target) ⟨false, [], false, ' '⟩
  st.found || (st.tag == target)

/-- Models `Todo::has_project_tag` on the title of a todo. -/
def hasProjectTag (t : Todo) (tag : List Char) : Bool :=
  hasTagRaw '+' tag t.title

/-- Models `Todo::has_context_tag` on the title of a todo. -/
def hasContextTag (t : Todo) (tag : List Char) : Bool :=
  hasTagRaw '@' tag t.title

/-- A titled list of todos, modelling `TodoColumn`. -/
structure TodoColumn where
  todos : List Todo
  title : List Char
deriving DecidableEq, Repr

/-- Models `TodoColumn::get`: the first todo whose title matches. -/
def colGetTodo (c : TodoColumn) (title : List Char) : Option Todo :=
  c.todos.find? (fun td => td.title == title)

/-- Models `TodoTable`. -/
structure TodoTable where
  title : List Char
  columns : List TodoColumn
deriving DecidableEq, Repr

/-- The single search pass of `TodoTable::move_todo`: walking the columns
in order, stop at the first column titled `fromT` (the loop `break`s
there), remembering the index of the last column titled `toT` seen
before it.  Returns (index of the `from` column, index of the `to`
column), either possibly absent. -/
def searchCols (fromT toT : List Char) : List TodoColumn → Option Nat × Option Nat
  | [] => (none, none)
  | c :: rest =>
    if c.title = fromT then (some 0, none)
    else
      ((searchCols fromT toT rest).1.map (fun i => i + 1),
       match (searchCols fromT toT rest).2 with
       | some j => some (j + 1)
       | none => if c.title = toT then some 0 else none)

/-- Models `TodoTable::move_todo`: if the search finds the source column,
a todo with the given title inside it, and a destination column (which
the search can only have recorded strictly before the source), append a
clone of the todo to the destination; otherwise return false and leave
the table untouched.  The source column is never modified. -/
def moveTodo (tbl : TodoTable) (title fromT toT : List Char) : Bool × TodoTable :=
  match searchCols fromT toT tbl.columns with
  | (some i, tj) =>
    match tbl.columns[i]? with
    | some ci =>
      match colGetTodo ci title with
      | some td =>
        match tj with
        | some j =>
          match tbl.columns[j]? with
          | some cj =>
            (true, { tbl with
              columns := tbl.columns.set j { cj with todos := cj.todos ++ [td] } })
          | none => (false, tbl)
        | none => (false, tbl)
      | none => (false, tbl)
    | none => (false, tbl)
  | (none, _) => (false, tbl)

/-- What a successful `move_todo` call did to the table: some destination
column strictly before the source column received an appended copy of
the todo, and the source column (still holding the todo) is untouched. -/
def movedSpec (tbl tblNew : TodoTable) (title fromT toT : List Char) : Prop :=
  ∃ i j ci cj td,
    j < i
    ∧ tbl.columns[i]? = some ci ∧ ci.title = fromT
    ∧ tbl.columns[j]? = some cj ∧ cj.title = toT
    ∧ colGetTodo ci title = some td ∧ td ∈ ci.todos
    ∧ tblNew.title = tbl.title
    ∧ tblNew.columns = tbl.columns.set j { cj with todos := cj.todos ++ [td] }
    ∧ tblNew.columns[i]? = some ci

/-- The representative corpus of well-formed record lines from the
specification (empty todo; the end-to-end example and its completed
variant; a full-featured line with priority, both dates, tags, metadata
and a due entry; and its completed variant). -/
def corpus : List String :=
  ["",
   "2023-01-07 Create a +todo @library due:2053-01-01",
   "x 2023-01-07 Create a +todo @library due:2053-01-01",
   "(B) 2023-01-08 2023-01-07 Do it +todo @library due:2053-01-01 key:val",
   "x (A) 2023-01-08 2023-01-07 Do it +todo @library due:2053-01-01 key:val"]

/-- Round-trip check for one line: parse it, format the result, compare
with the original line. -/
def roundTripChk (s : String) : Bool :=
  match fromStrS s with
  | Except.ok t => displayS t == s
  | Except.error _ => false

/-- Date order is reflexive (a deadline equal to today is due). -/
theorem dateLeB_refl (d : Date) : Date.leB d d = true := by
  simp [Date.leB]

/-- The next calendar day is never on or before today. -/
theorem dateLeB_tomorrow_false (d : Date) : Date.leB (tomorrow d) d = false := by
  unfold tomorrow
  split_ifs <;> simp [Date.leB]

/-- A day is on or before the next calendar day. -/
theorem dateLeB_of_tomorrow_eq (a b : Date) (h : tomorrow a = b) :
    Date.leB a b = true := by
  subst h
  unfold tomorrow
  split_ifs <;> simp [Date.leB]

/-- Strictly-before on one side forces not-on-or-before on the other. -/
theorem dateLtB_leB_false (a b : Date) (h : Date.ltB a b = true) :
    Date.leB b a = false := by
  simp [Date.ltB] at h
  simp [Date.leB]
  omega

/-- Claim C1, counterexample: the line `"a "` is accepted by the parser
(`from_str` returns `Ok`), but formatting the result yields `"a"`, not
the original line, so the universal round-trip law fails. -/
theorem c1_round_trip_cex :
    ∃ t : Todo, fromStrS "a " = Except.ok t ∧ displayS t ≠ "a " := by
  refine ⟨⟨"a".data, false, TodoPriority.None, ⟨[]⟩, TodoDate.Never, none, none⟩,
    by decide, by decide⟩

/-- Claim C1, amended: the round-trip law `format(parse(line)) = line`
holds for every line of the representative corpus (empty todo; the
end-to-end example and its completed variant; a full-featured line with
priority, completion and creation dates, tags, metadata and a due entry,
and its completed variant), though not for arbitrary accepted input. -/
theorem c1_round_trip_corpus : corpus.all roundTripChk = true := by decide

/-- Claim C3, counterexample: parsing a record with `due:3d` and creation
date 2023-01-07 does not resolve the deadline to 2023-01-10, and the
`due` entry is not consumed out of the metadata map. -/
theorem c3_relative_due_cex :
    ∃ t : Todo,
      fromStrS "2023-01-07 Create due:3d" = Except.ok t
      ∧ t.deadline ≠ TodoDate.Day ⟨2023, 1, 10⟩
      ∧ t.metadata.get ("due".data) ≠ none := by
  refine ⟨⟨"Create".data, false, TodoPriority.None,
    ⟨[("due".data, "3d".data)]⟩, TodoDate.Never, some ⟨2023, 1, 7⟩, none⟩,
    by decide, by decide, by decide⟩

/-- Claim C3, amended: parsing a record containing `due:3d` with creation
date 2023-01-07 leaves the deadline `Never` and keeps the `due:3d` entry
in the metadata map: the parser resolves only ISO `YYYY-MM-DD` values of
the `due` key, and any other form passes through as ordinary metadata. -/
theorem c3_relative_due_amended :
    ∃ t : Todo,
      fromStrS "2023-01-07 Create due:3d" = Except.ok t
      ∧ t.created = some ⟨2023, 1, 7⟩
      ∧ t.deadline = TodoDate.Never
      ∧ t.metadata.get ("due".data) = some ("3d".data) := by
  refine ⟨⟨"Create".data, false, TodoPriority.None,
    ⟨[("due".data, "3d".data)]⟩, TodoDate.Never, some ⟨2023, 1, 7⟩, none⟩,
    by decide, rfl, rfl, by decide⟩

/-- Claim C4, counterexample: the date-shaped token `"2023-13-45"` does
not form a valid calendar date, yet `from_str` succeeds and absorbs the
token into the title instead of failing with `BadDate`. -/
theorem c4_bad_date_cex :
    ∃ t : Todo,
      fromStrS "2023-13-45" = Except.ok t ∧ t.title = "2023-13-45".data := by
  refine ⟨⟨"2023-13-45".data, false, TodoPriority.None, ⟨[]⟩,
    TodoDate.Never, none, none⟩, by decide, rfl⟩

/-- The token loop of `from_str` either succeeds or fails with
`BadPriority`; no other error is ever produced. -/
theorem parseParts_ok_or_bad_priority (ps : List (List Char)) (st : PState) :
    (∃ stNew, parseParts ps st = Except.ok stNew)
    ∨ parseParts ps st = Except.error TodoParseError.BadPriority := by
  induction ps generalizing st with
  | nil => exact Or.inl ⟨st, rfl⟩
  | cons p rest ih =>
    rw [parseParts]
    cases h : tryFromPriority p with
    | ok pr => exact ih _
    | error e =>
      cases e with
      | InvalidPriority => exact Or.inr rfl
      | MissingParens => exact ih _

/-- Claim C4, amended: `from_str` never returns `BadDate` — its only
hard failure is `BadPriority`; a date-shaped token that fails calendar
validation (such as `"2023-13-45"`) is absorbed into the description. -/
theorem c4_bad_date_amended (s : List Char) :
    (fromStrL s = Except.error TodoParseError.BadPriority
      ∨ ∃ t, fromStrL s = Except.ok t)
    ∧ (∃ t, fromStrS "2023-13-45" = Except.ok t
        ∧ t.title = "2023-13-45".data ∧ t.deadline = TodoDate.Never) := by
  constructor
  · rcases parseParts_ok_or_bad_priority (partsOf s) initPState with ⟨st, h⟩ | h
    · exact Or.inr ⟨_, by rw [fromStrL, h]⟩
    · exact Or.inl (by rw [fromStrL, h])
  · exact ⟨⟨"2023-13-45".data, false, TodoPriority.None, ⟨[]⟩,
      TodoDate.Never, none, none⟩, by decide, rfl, rfl⟩

/-- Witness for C4's amended theorem at the concrete input
`"2023-13-45"`. -/
theorem c4_bad_date_amended_witness :
    (fromStrL ("2023-13-45".data) = Except.error TodoParseError.BadPriority
      ∨ ∃ t, fromStrL ("2023-13-45".data) = Except.ok t)
    ∧ (∃ t, fromStrS "2023-13-45" = Except.ok t
        ∧ t.title = "2023-13-45".data ∧ t.deadline = TodoDate.Never) :=
  c4_bad_date_amended ("2023-13-45".data)

/-- Claim C5: at every evaluation instant, `Never` is never due, `Always`
is always due, a `Day` deadline equal to the current day is due
(non-strict, and independent of the time-of-day component of `now`), a
`Day` one day in the future is not due, a `Day` one day in the past is
due, and a completed todo is never due regardless of its deadline. -/
theorem c5_due_predicate (now : DateTime) (past : Date) (t : Todo)
    (hp : tomorrow past = now.date) (hc : t.completed = true) :
    TodoDate.due TodoDate.Never now = false
    ∧ TodoDate.due TodoDate.Always now = true
    ∧ TodoDate.due (TodoDate.Day now.date) now = true
    ∧ TodoDate.due (TodoDate.Day (tomorrow now.date)) now = false
    ∧ TodoDate.due (TodoDate.Day past) now = true
    ∧ Todo.due t now = false := by
  refine ⟨rfl, rfl, ?_, ?_, ?_, ?_⟩
  · simp [TodoDate.due, dateLeB_refl]
  · simp [TodoDate.due, dateLeB_tomorrow_false]
  · simp [TodoDate.due, dateLeB_of_tomorrow_eq _ _ hp]
  · simp [Todo.due, hc]

/-- Witness for C5 at the instant 2026-10-12 09:00:00, the previous day
2026-10-11, and a concrete completed todo with an `Always` deadline. -/
theorem c5_due_predicate_witness :
    TodoDate.due TodoDate.Never ⟨⟨2026, 10, 12⟩, ⟨9, 0, 0⟩⟩ = false
    ∧ TodoDate.due TodoDate.Always ⟨⟨2026, 10, 12⟩, ⟨9, 0, 0⟩⟩ = true
    ∧ TodoDate.due (TodoDate.Day (⟨⟨2026, 10, 12⟩, ⟨9, 0, 0⟩⟩ : DateTime).date)
        ⟨⟨2026, 10, 12⟩, ⟨9, 0, 0⟩⟩ = true
    ∧ TodoDate.due
        (TodoDate.Day (tomorrow (⟨⟨2026, 10, 12⟩, ⟨9, 0, 0⟩⟩ : DateTime).date))
        ⟨⟨2026, 10, 12⟩, ⟨9, 0, 0⟩⟩ = false
    ∧ TodoDate.due (TodoDate.Day ⟨2026, 10, 11⟩) ⟨⟨2026, 10, 12⟩, ⟨9, 0, 0⟩⟩ = true
    ∧ Todo.due ⟨[], true, TodoPriority.None, ⟨[]⟩, TodoDate.Always, none, none⟩
        ⟨⟨2026, 10, 12⟩, ⟨9, 0, 0⟩⟩ = false :=
  c5_due_predicate ⟨⟨2026, 10, 12⟩, ⟨9, 0, 0⟩⟩ ⟨2026, 10, 11⟩
    ⟨[], true, TodoPriority.None, ⟨[]⟩, TodoDate.Always, none, none⟩
    (by decide) rfl

/-- Claim C2: the end-to-end example line parses to an incomplete todo
with creation date 2023-01-07, project tag `todo`, context tag
`library`, deadline `Day 2053-01-01`, which is not due at any evaluation
instant whose day is before 2053-01-01; and with the completed flag set
its formatted output is exactly the input prefixed by `"x "`.  (Marking
complete is modelled as setting the `completed` flag, exactly as the
library's own example and test do.) -/
theorem c2_end_to_end (now : DateTime)
    (h : Date.ltB now.date ⟨2053, 1, 1⟩ = true) :
    ∃ t : Todo,
      fromStrS "2023-01-07 Create a +todo @library due:2053-01-01" = Except.ok t
      ∧ t.completed = false
      ∧ t.created = some ⟨2023, 1, 7⟩
      ∧ hasProjectTag t ("todo".data) = true
      ∧ hasContextTag t ("library".data) = true
      ∧ t.deadline = TodoDate.Day ⟨2053, 1, 1⟩
      ∧ Todo.due t now = false
      ∧ displayS { t with completed := true } =
          "x 2023-01-07 Create a +todo @library due:2053-01-01" := by
  refine ⟨⟨"Create a +todo @library".data, false, TodoPriority.None, ⟨[]⟩,
    TodoDate.Day ⟨2053, 1, 1⟩, some ⟨2023, 1, 7⟩, none⟩,
    by decide, rfl, rfl, by decide, by decide, rfl, ?_, by decide⟩
  simp [Todo.due, TodoDate.due, dateLtB_leB_false _ _ h]

/-- Witness for C2 at the evaluation instant 2026-10-12 00:00:00. -/
theorem c2_end_to_end_witness :
    ∃ t : Todo,
      fromStrS "2023-01-07 Create a +todo @library due:2053-01-01" = Except.ok t
      ∧ t.completed = false
      ∧ t.created = some ⟨2023, 1, 7⟩
      ∧ hasProjectTag t ("todo".data) = true
      ∧ hasContextTag t ("library".data) = true
      ∧ t.deadline = TodoDate.Day ⟨2053, 1, 1⟩
      ∧ Todo.due t ⟨⟨2026, 10, 12⟩, ⟨0, 0, 0⟩⟩ = false
      ∧ displayS { t with completed := true } =
          "x 2023-01-07 Create a +todo @library due:2053-01-01" :=
  c2_end_to_end ⟨⟨2026, 10, 12⟩, ⟨0, 0, 0⟩⟩ (by decide)

/-- Claim C7, counterexample: in the modular `priority.rs` variant the
derived order is reversed, so the priority decoded from `"(A)"` does not
compare strictly less than the one decoded from `"(B)"` — it compares
strictly greater. -/
theorem c7_letter_order_cex :
    tryFromPriority ("(A)".data) = Except.ok TodoPriority.A
    ∧ tryFromPriority ("(B)".data) = Except.ok TodoPriority.B
    ∧ ¬ priorityRankNew TodoPriority.A < priorityRankNew TodoPriority.B
    ∧ priorityRankNew TodoPriority.B < priorityRankNew TodoPriority.A := by
  decide

/-- Claim C7, amended: under the monolithic `lib.rs` declaration order
the 26 decoded ranks compare in letter order (`A < B < ... < Z`), while
under the modular `priority.rs` declaration order the derived comparison
is exactly reversed (`A` greatest). -/
theorem c7_letter_order_amended (i j : Fin 26) (h : i < j) :
    priorityRank (alphabet.getD i.val TodoPriority.None) <
      priorityRank (alphabet.getD j.val TodoPriority.None)
    ∧ priorityRankNew (alphabet.getD j.val TodoPriority.None) <
      priorityRankNew (alphabet.getD i.val TodoPriority.None) := by
  revert i j
  decide

/-- Witness for C7's amended theorem at the first two letters. -/
theorem c7_letter_order_amended_witness :
    priorityRank (alphabet.getD (0 : Fin 26).val TodoPriority.None) <
      priorityRank (alphabet.getD (1 : Fin 26).val TodoPriority.None)
    ∧ priorityRankNew (alphabet.getD (1 : Fin 26).val TodoPriority.None) <
      priorityRankNew (alphabet.getD (0 : Fin 26).val TodoPriority.None) :=
  c7_letter_order_amended 0 1 (by decide)

/-- A successful table lookup is a table entry. -/
theorem assocTok_mem (l : List (List Char × TodoPriority)) (t : List Char)
    (p : TodoPriority) (h : assocTok l t = some p) : (t, p) ∈ l := by
  induction l with
  | nil => simp [assocTok] at h
  | cons kv rest ih =>
    rcases kv with ⟨k, v⟩
    rw [assocTok] at h
    split at h
    · next hk =>
      injection h with h
      subst hk h
      exact List.mem_cons_self _ _
    · exact List.mem_cons_of_mem _ (ih h)

/-- A failed table lookup means no table entry has that key. -/
theorem assocTok_none (l : List (List Char × TodoPriority)) (t : List Char)
    (h : assocTok l t = none) (p : TodoPriority) : (t, p) ∉ l := by
  induction l with
  | nil => simp
  | cons kv rest ih =>
    rcases kv with ⟨k, v⟩
    rw [assocTok] at h
    split at h
    · exact absurd h (by simp)
    · next hk =>
      intro hm
      rcases List.mem_cons.mp hm with he | hm
      · exact hk (congrArg Prod.fst he).symm
      · exact ih h hm

/-- With duplicate-free keys, membership determines the lookup result. -/
theorem assocTok_of_mem (l : List (List Char × TodoPriority)) (t : List Char)
    (p : TodoPriority) (hnd : (l.map Prod.fst).Nodup) (h : (t, p) ∈ l) :
    assocTok l t = some p := by
  induction l with
  | nil => simp at h
  | cons kv rest ih =>
    rcases kv with ⟨k, v⟩
    rw [List.map_cons, List.nodup_cons] at hnd
    rcases List.mem_cons.mp h with he | hm
    · rw [assocTok, if_pos (congrArg Prod.fst he).symm]
      exact congrArg some (congrArg Prod.snd he).symm
    · rw [assocTok]
      split
      · next hk =>
        subst hk
        exact absurd (List.mem_map_of_mem Prod.fst hm) hnd.1
      · exact ih hnd.2 hm

/-- Claim C6: `TryFrom<&str> for TodoPriority` fails with `MissingParens`
exactly when the token is not wrapped in `(` and `)`; fails with
`InvalidPriority` exactly when it is parenthesized but is none of the 26
tokens `"(A)"`..`"(Z)"`; and decodes exactly those 26 tokens, each to its
corresponding rank as listed by `priorityTable`. -/
theorem c6_priority_decode (t : List Char) :
    (tryFromPriority t = Except.error InvalidPriorityError.MissingParens
      ↔ (startsWithChar t '(' && endsWithChar t ')') = false)
    ∧ (tryFromPriority t = Except.error InvalidPriorityError.InvalidPriority
      ↔ ((startsWithChar t '(' && endsWithChar t ')') = true
          ∧ ∀ p, (t, p) ∉ priorityTable))
    ∧ (∀ p, tryFromPriority t = Except.ok p ↔ (t, p) ∈ priorityTable) := by
  have hnd : (priorityTable.map Prod.fst).Nodup := by decide
  have hpar : ∀ e ∈ priorityTable,
      (startsWithChar e.1 '(' && endsWithChar e.1 ')') = true := by decide
  by_cases hc : (startsWithChar t '(' && endsWithChar t ')') = true
  · cases ha : assocTok priorityTable t with
    | some p =>
      have hmem := assocTok_mem _ _ _ ha
      refine ⟨by simp [tryFromPriority, hc, ha], ?_, ?_⟩
      · constructor
        · intro h
          exact absurd h (by simp [tryFromPriority, hc, ha])
        · rintro ⟨-, hnp⟩
          exact absurd hmem (hnp p)
      intro q
      simp only [tryFromPriority, hc, if_true, ha]
      constructor
      · intro h
        injection h with h
        exact h ▸ hmem
      · intro hq
        have := assocTok_of_mem _ _ _ hnd hq
        rw [ha] at this
        injection this with this
        exact congrArg Except.ok this
    | none =>
      refine ⟨by simp [tryFromPriority, hc, ha],
        ⟨fun _ => ⟨hc, assocTok_none _ _ ha⟩, fun _ => by simp [tryFromPriority, hc, ha]⟩, ?_⟩
      intro q
      simp only [tryFromPriority, hc, if_true, ha]
      constructor
      · intro h
        exact absurd h (by simp)
      · intro hq
        have := assocTok_of_mem _ _ _ hnd hq
        rw [ha] at this
        exact absurd this (by simp)
  · have hc0 : (startsWithChar t '(' && endsWithChar t ')') = false :=
      Bool.eq_false_iff.mpr hc
    refine ⟨by simp [tryFromPriority, hc0], by simp [tryFromPriority, hc0, hc], ?_⟩
    intro q
    simp only [tryFromPriority, hc0, Bool.false_eq_true, if_false]
    constructor
    · intro h
      exact absurd h (by simp)
    · intro hq
      exact absurd (hpar _ hq) (by simpa using hc)

/-- Witness for C6 at the concrete token `"(A)"`. -/
theorem c6_priority_decode_witness :
    (tryFromPriority ("(A)".data) = Except.error InvalidPriorityError.MissingParens
      ↔ (startsWithChar ("(A)".data) '(' && endsWithChar ("(A)".data) ')') = false)
    ∧ (tryFromPriority ("(A)".data) = Except.error InvalidPriorityError.InvalidPriority
      ↔ ((startsWithChar ("(A)".data) '(' && endsWithChar ("(A)".data) ')') = true
          ∧ ∀ p, (("(A)".data, p) ∉ priorityTable)))
    ∧ (∀ p, tryFromPriority ("(A)".data) = Except.ok p ↔ ("(A)".data, p) ∈ priorityTable) :=
  c6_priority_decode ("(A)".data)

/-- A token that decodes as a priority is one of the parenthesized
letter tokens, and those never parse as dates. -/
theorem tryFromPriority_ok_not_date (p : List Char) (pr : TodoPriority)
    (h : tryFromPriority p = Except.ok pr) : parseDate p = none := by
  rw [tryFromPriority] at h
  split at h
  · cases ha : assocTok priorityTable p with
    | some q =>
      have hmem := assocTok_mem _ _ _ ha
      have hall : priorityTable.all (fun e => (parseDate e.1).isNone) = true := by
        decide
      simpa using List.all_eq_true.mp hall _ hmem
    | none => simp [ha] at h
  · exact absurd h (by simp)

/-- A non-date token leaves the `created`/`completed` pair of the loop
state untouched. -/
theorem stepNonPriority_no_date (p : List Char) (st : PState)
    (h : parseDate p = none) :
    (stepNonPriority p st).created = st.created
    ∧ (stepNonPriority p st).compl = st.compl := by
  simp only [stepNonPriority, h]
  split_ifs <;> exact ⟨rfl, rfl⟩

/-- Through the token loop, the `created`/`completed` pair evolves by
shifting in each date token in order (`std::mem::replace`): the result
is `shiftDates` of the date tokens of the processed list. -/
theorem parseParts_dates (ps : List (List Char)) (st stNew : PState)
    (h : parseParts ps st = Except.ok stNew) :
    (stNew.created, stNew.compl) =
      shiftDates (st.created, st.compl) (ps.filterMap parseDate) := by
  induction ps generalizing st with
  | nil =>
    rw [parseParts] at h
    injection h with h
    subst h
    rfl
  | cons p rest ih =>
    rw [parseParts] at h
    cases hpr : tryFromPriority p with
    | ok pr =>
      simp only [hpr] at h
      rw [List.filterMap_cons, tryFromPriority_ok_not_date _ _ hpr]
      have hih := ih _ h
      exact hih
    | error e =>
      cases e with
      | InvalidPriority =>
        simp only [hpr] at h
        exact absurd h (by simp)
      | MissingParens =>
        simp only [hpr] at h
        cases hd : parseDate p with
        | some d =>
          rw [List.filterMap_cons, hd]
          rw [ih _ h]
          simp [stepNonPriority, hd, shiftDates]
        | none =>
          rw [List.filterMap_cons, hd]
          have hstep := stepNonPriority_no_date p st hd
          rw [ih _ h, hstep.1, hstep.2]

/-- Claim C8: if exactly one token of the line parses as a calendar date
it becomes the creation date with no completion date; if exactly two do,
the creation date is the second one and the first-seen date is demoted
into the completion date. -/
theorem c8_date_demotion (s : List Char) (t : Todo)
    (h : fromStrL s = Except.ok t) :
    (∀ d1, datesOf s = [d1] →
      t.created = some d1 ∧ t.completion_date = none)
    ∧ (∀ d1 d2, datesOf s = [d1, d2] →
      t.created = some d2 ∧ t.completion_date = some d1) := by
  rw [fromStrL] at h
  cases hpp : parseParts (partsOf s) initPState with
  | error e =>
    simp only [hpp] at h
    exact absurd h (by simp)
  | ok st =>
    simp only [hpp] at h
    injection h with h
    subst h
    have hinv := parseParts_dates _ _ _ hpp
    constructor
    · intro d1 hd
      rw [show (partsOf s).filterMap parseDate = [d1] from hd] at hinv
      simp only [shiftDates, initPState] at hinv
      exact ⟨congrArg Prod.fst hinv, congrArg Prod.snd hinv⟩
    · intro d1 d2 hd
      rw [show (partsOf s).filterMap parseDate = [d1, d2] from hd] at hinv
      simp only [shiftDates, initPState] at hinv
      exact ⟨congrArg Prod.fst hinv, congrArg Prod.snd hinv⟩

/-- Witness for C8 on the concrete line
`"2023-01-08 2023-01-07 hi"`: the second date becomes `created`, the
first is demoted into `completion_date`. -/
theorem c8_date_demotion_witness :
    (∀ d1, datesOf ("2023-01-08 2023-01-07 hi".data) = [d1] →
      (Todo.mk ("hi".data) false TodoPriority.None ⟨[]⟩ TodoDate.Never
        (some ⟨2023, 1, 7⟩) (some ⟨2023, 1, 8⟩)).created = some d1
      ∧ (Todo.mk ("hi".data) false TodoPriority.None ⟨[]⟩ TodoDate.Never
        (some ⟨2023, 1, 7⟩) (some ⟨2023, 1, 8⟩)).completion_date = none)
    ∧ (∀ d1 d2, datesOf ("2023-01-08 2023-01-07 hi".data) = [d1, d2] →
      (Todo.mk ("hi".data) false TodoPriority.None ⟨[]⟩ TodoDate.Never
        (some ⟨2023, 1, 7⟩) (some ⟨2023, 1, 8⟩)).created = some d2
      ∧ (Todo.mk ("hi".data) false TodoPriority.None ⟨[]⟩ TodoDate.Never
        (some ⟨2023, 1, 7⟩) (some ⟨2023, 1, 8⟩)).completion_date = some d1) :=
  c8_date_demotion ("2023-01-08 2023-01-07 hi".data)
    (Todo.mk ("hi".data) false TodoPriority.None ⟨[]⟩ TodoDate.Never
      (some ⟨2023, 1, 7⟩) (some ⟨2023, 1, 8⟩))
    (by decide)

/-- The first component of the `move_todo` search points at a column
titled `fromT`. -/
theorem searchCols_from (fromT toT : List Char) (cols : List TodoColumn)
    (i : Nat) (h : (searchCols fromT toT cols).1 = some i) :
    ∃ ci, cols[i]? = some ci ∧ ci.title = fromT := by
  induction cols generalizing i with
  | nil => simp [searchCols] at h
  | cons c rest ih =>
    rw [searchCols] at h
    split at h
    · next ht =>
      injection h with h
      subst h
      exact ⟨c, by simp, ht⟩
    · dsimp only at h
      cases hf : (searchCols fromT toT rest).1 with
      | none => simp [hf] at h
      | some i0 =>
        simp only [hf, Option.map_some] at h
        injection h with h
        subst h
        obtain ⟨ci, hci, hti⟩ := ih i0 hf
        exact ⟨ci, by rw [List.getElem?_cons_succ]; exact hci, hti⟩

/-- The second component of the `move_todo` search points at a column
titled `toT`. -/
theorem searchCols_to (fromT toT : List Char) (cols : List TodoColumn)
    (j : Nat) (h : (searchCols fromT toT cols).2 = some j) :
    ∃ cj, cols[j]? = some cj ∧ cj.title = toT := by
  induction cols generalizing j with
  | nil => simp [searchCols] at h
  | cons c rest ih =>
    rw [searchCols] at h
    split at h
    · exact absurd h (by simp)
    · dsimp only at h
      cases hs : (searchCols fromT toT rest).2 with
      | some j0 =>
        simp only [hs] at h
        injection h with h
        subst h
        obtain ⟨cj, hcj, htj⟩ := ih j0 hs
        exact ⟨cj, by rw [List.getElem?_cons_succ]; exact hcj, htj⟩
      | none =>
        simp only [hs] at h
        split at h
        · next ht =>
          injection h with h
          subst h
          exact ⟨c, by simp, ht⟩
        · exact absurd h (by simp)

/-- When the `move_todo` search finds both columns, the destination
index is strictly before the source index. -/
theorem searchCols_lt (fromT toT : List Char) (cols : List TodoColumn)
    (i j : Nat) (h1 : (searchCols fromT toT cols).1 = some i)
    (h2 : (searchCols fromT toT cols).2 = some j) : j < i := by
  induction cols generalizing i j with
  | nil => simp [searchCols] at h1
  | cons c rest ih =>
    rw [searchCols] at h1 h2
    by_cases ht : c.title = fromT
    · rw [if_pos ht] at h2
      exact absurd h2 (by simp)
    · rw [if_neg ht] at h1 h2
      dsimp only at h1 h2
      cases hf : (searchCols fromT toT rest).1 with
      | none => simp [hf] at h1
      | some i0 =>
        simp only [hf, Option.map_some] at h1
        injection h1 with h1
        cases hs : (searchCols fromT toT rest).2 with
        | some j0 =>
          simp only [hs] at h2
          injection h2 with h2
          have hi : i0 + 1 = i := h1
          have := ih i0 j0 hf hs
          omega
        | none =>
          simp only [hs] at h2
          split at h2
          · injection h2 with h2
            have hi : i0 + 1 = i := h1
            omega
          · exact absurd h2 (by simp)

/-- Claim C9: `move_todo` never removes the todo from the source column.
When it returns true, a clone of the todo has been appended to a
destination column that appears strictly before the source column in
the table's column list, and the source column is untouched and still
holds the todo; in every other case it returns false and leaves the
table unchanged. -/
theorem c9_move_todo (tbl : TodoTable) (title fromT toT : List Char)
    (b : Bool) (tblNew : TodoTable)
    (h : moveTodo tbl title fromT toT = (b, tblNew)) :
    (b = false → tblNew = tbl)
    ∧ (b = true → movedSpec tbl tblNew title fromT toT) := by
  rw [moveTodo] at h
  rcases hs : searchCols fromT toT tbl.columns with ⟨fi, ti⟩
  rw [hs] at h
  cases fi with
  | none =>
    injection h with hb ht
    subst hb ht
    exact ⟨fun _ => rfl, fun hb => by simp at hb⟩
  | some i =>
    have hsf : (searchCols fromT toT tbl.columns).1 = some i := by rw [hs]
    cases hci : tbl.columns[i]? with
    | none =>
      simp only [hci] at h
      injection h with hb ht
      subst hb ht
      exact ⟨fun _ => rfl, fun hb => by simp at hb⟩
    | some ci =>
      simp only [hci] at h
      cases hgt : colGetTodo ci title with
      | none =>
        simp only [hgt] at h
        injection h with hb ht
        subst hb ht
        exact ⟨fun _ => rfl, fun hb => by simp at hb⟩
      | some td =>
        simp only [hgt] at h
        cases ti with
        | none =>
          injection h with hb ht
          subst hb ht
          exact ⟨fun _ => rfl, fun hb => by simp at hb⟩
        | some j =>
          have hst : (searchCols fromT toT tbl.columns).2 = some j := by rw [hs]
          cases hcj : tbl.columns[j]? with
          | none =>
            simp only [hcj] at h
            injection h with hb ht
            subst hb ht
            exact ⟨fun _ => rfl, fun hb => by simp at hb⟩
          | some cj =>
            simp only [hcj] at h
            injection h with hb ht
            subst hb ht
            refine ⟨fun hb => by simp at hb, fun _ => ?_⟩
            obtain ⟨ci', hci', hti⟩ := searchCols_from fromT toT _ i hsf
            obtain ⟨cj', hcj', htj⟩ := searchCols_to fromT toT _ j hst
            have hlt := searchCols_lt fromT toT _ i j hsf hst
            rw [hci] at hci'
            injection hci' with hci'
            rw [hcj] at hcj'
            injection hcj' with hcj'
            subst hci' hcj'
            refine ⟨i, j, ci, cj, td, hlt, hci, hti, hcj, htj,
              hgt, List.mem_of_find?_eq_some hgt, rfl, rfl, ?_⟩
            show (tbl.columns.set j _)[i]? = some ci
            rw [List.getElem?_set_ne (Nat.ne_of_lt hlt)]
            exact hci

/-- Witness for C9 on a concrete two-column table: moving todo `"2"`
from column `"B"` into the earlier column `"A"` succeeds and appends a
copy there while leaving `"B"` intact. -/
theorem c9_move_todo_witness :
    ((true = false →
      TodoTable.mk ("T".data)
        [TodoColumn.mk
          [Todo.mk ("1".data) false TodoPriority.None ⟨[]⟩ TodoDate.Never none none,
           Todo.mk ("2".data) false TodoPriority.None ⟨[]⟩ TodoDate.Never none none]
          ("A".data),
         TodoColumn.mk
          [Todo.mk ("2".data) false TodoPriority.None ⟨[]⟩ TodoDate.Never none none]
          ("B".data)] =
      TodoTable.mk ("T".data)
        [TodoColumn.mk
          [Todo.mk ("1".data) false TodoPriority.None ⟨[]⟩ TodoDate.Never none none]
          ("A".data),
         TodoColumn.mk
          [Todo.mk ("2".data) false TodoPriority.None ⟨[]⟩ TodoDate.Never none none]
          ("B".data)])
    ∧ (true = true →
      movedSpec
        (TodoTable.mk ("T".data)
          [TodoColumn.mk
            [Todo.mk ("1".data) false TodoPriority.None ⟨[]⟩ TodoDate.Never none none]
            ("A".data),
           TodoColumn.mk
            [Todo.mk ("2".data) false TodoPriority.None ⟨[]⟩ TodoDate.Never none none]
            ("B".data)])
        (TodoTable.mk ("T".data)
          [TodoColumn.mk
            [Todo.mk ("1".data) false TodoPriority.None ⟨[]⟩ TodoDate.Never none none,
             Todo.mk ("2".data) false TodoPriority.None ⟨[]⟩ TodoDate.Never none none]
            ("A".data),
           TodoColumn.mk
            [Todo.mk ("2".data) false TodoPriority.None ⟨[]⟩ TodoDate.Never none none]
            ("B".data)])
        ("2".data) ("B".data) ("A".data))) :=
  c9_move_todo
    (TodoTable.mk ("T".data)
      [TodoColumn.mk
        [Todo.mk ("1".data) false TodoPriority.None ⟨[]⟩ TodoDate.Never none none]
        ("A".data),
       TodoColumn.mk
        [Todo.mk ("2".data) false TodoPriority.None ⟨[]⟩ TodoDate.Never none none]
        ("B".data)])
    ("2".data) ("B".data) ("A".data) true
    (TodoTable.mk ("T".data)
      [TodoColumn.mk
        [Todo.mk ("1".data) false TodoPriority.None ⟨[]⟩ TodoDate.Never none none,
         Todo.mk ("2".data) false TodoPriority.None ⟨[]⟩ TodoDate.Never none none]
        ("A".data),
       TodoColumn.mk
        [Todo.mk ("2".data) false TodoPriority.None ⟨[]⟩ TodoDate.Never none none]
        ("B".data)])
    (by decide)

/-- The tag scan only accumulates `tag` characters while inside a tag:
one step preserves the invariant that a state outside any tag has an
empty `tag` buffer. -/
theorem tagStep_inv (st : TagScanState) (ch : Char)
    (h : st.inProject = false → st.inContext = false → st.tag = []) :
    (tagStep st ch).inProject = false → (tagStep st ch).inContext = false →
      (tagStep st ch).tag = [] := by
  unfold tagStep
  split_ifs with h1 h2 h3 h4 <;> intro hp hc <;> simp_all

/-- The out-of-tag invariant holds after scanning any character list. -/
theorem foldl_tagStep_inv (cs : List Char) (st : TagScanState)
    (h : st.inProject = false → st.inContext = false → st.tag = []) :
    (List.foldl tagStep st cs).inProject = false →
      (List.foldl tagStep st cs).inContext = false →
      (List.foldl tagStep st cs).tag = [] := by
  induction cs generalizing st with
  | nil => exact h
  | cons c rest ih => exact ih (tagStep st c) (tagStep_inv st c h)

/-- Reading a space from a state respecting the invariant flushes or
passes through: the result is always a clean state. -/
theorem tagStep_space (st : TagScanState)
    (hinv : st.inProject = false → st.inContext = false → st.tag = []) :
    ∃ S, tagStep st ' ' = ⟨S, [], false, false, ' '⟩ := by
  obtain ⟨Sv, tagv, ipv, icv, lastv⟩ := st
  simp only at hinv
  unfold tagStep
  dsimp only
  rw [if_neg (fun h => absurd h.1 (by decide)),
      if_neg (fun h => absurd h.1 (by decide)),
      if_neg (fun h => absurd h.2 (by decide))]
  cases ipv with
  | true =>
    rw [if_pos ⟨Or.inl rfl, by decide⟩]
    exact ⟨_, rfl⟩
  | false =>
    cases icv with
    | true =>
      rw [if_pos ⟨Or.inr rfl, by decide⟩]
      exact ⟨_, rfl⟩
    | false =>
      rw [if_neg (fun h => by
        rcases h.1 with h1 | h1 <;> exact absurd h1 (by decide))]
      rw [hinv rfl rfl]
      exact ⟨Sv, rfl⟩

/-- Scanning a title that is empty or ends in a space leaves the scanner
in a clean state: empty tag buffer, no tag flags, last character a
space. -/
theorem foldl_tagStep_clean (p : List Char)
    (hp : p = [] ∨ ∃ q, p = q ++ [' ']) :
    ∃ S, List.foldl tagStep tagScanInit p = ⟨S, [], false, false, ' '⟩ := by
  rcases hp with rfl | ⟨q, rfl⟩
  · exact ⟨[], rfl⟩
  · rw [List.foldl_append]
    exact tagStep_space _ (foldl_tagStep_inv q tagScanInit (fun _ _ => rfl))

/-- Reading a non-whitespace character when the previous character was
not a space never opens or flushes a tag: the set is unchanged and the
last character becomes the one read. -/
theorem tagStep_nonspace (st : TagScanState) (c : Char)
    (hlast : st.last ≠ ' ') (hc : isWhite c = false) :
    (tagStep st c).set = st.set ∧ (tagStep st c).last = c := by
  unfold tagStep
  rw [if_neg (fun h => hlast h.2), if_neg (fun h => hlast h.2)]
  by_cases h3 : (st.inProject = true ∨ st.inContext = true) ∧ isWhite c = false
  · rw [if_pos h3]
    exact ⟨rfl, rfl⟩
  · rw [if_neg h3,
      if_neg (fun h4 => by rw [h4.2] at hc; exact absurd hc (by decide))]
    exact ⟨rfl, rfl⟩

/-- Scanning non-whitespace characters from a state whose last character
is not a space never flushes: the collected tag set is unchanged. -/
theorem foldl_tagStep_keep (cs : List Char) (st : TagScanState)
    (hlast : st.last ≠ ' ') (hcs : ∀ c ∈ cs, isWhite c = false) :
    (List.foldl tagStep st cs).set = st.set := by
  induction cs generalizing st with
  | nil => rfl
  | cons c rest ih =>
    have hc := hcs c (List.mem_cons_self _ _)
    have hcne : c ≠ ' ' := fun he => by rw [he] at hc; exact absurd hc (by decide)
    have h1 := tagStep_nonspace st c hlast hc
    rw [List.foldl_cons,
      ih (tagStep st c) (fun he => hcne (h1.2.symm.trans he))
        (fun d hd => hcs d (List.mem_cons_of_mem _ hd)),
      h1.1]

/-- A tag sigil read after a space opens a tag without touching the
collected set. -/
theorem tagStep_sigil (st : TagScanState) (sig : Char)
    (hsig : sig = '+' ∨ sig = '@') (hlast : st.last = ' ') :
    (tagStep st sig).set = st.set ∧ (tagStep st sig).last = sig := by
  rcases hsig with rfl | rfl
  · unfold tagStep
    rw [if_pos ⟨rfl, hlast⟩]
    exact ⟨rfl, rfl⟩
  · unfold tagStep
    rw [if_neg (fun h => absurd h.1 (by decide)), if_pos ⟨rfl, hlast⟩]
    exact ⟨rfl, rfl⟩

/-- Once the early-return flag of `has_tag_raw` is set, the rest of the
scan changes nothing. -/
theorem htStep_found_frozen (start : Char) (target : List Char) (cs : List Char)
    (st : HtState) (hf : st.found = true) :
    List.foldl (htStep start target) st cs = st := by
  induction cs generalizing st with
  | nil => rfl
  | cons c rest ih =>
    rw [List.foldl_cons,
      show htStep start target st c = st from by unfold htStep; rw [if_pos hf]]
    exact ih st hf

/-- One step of `has_tag_raw` preserves the invariant that, short of an
early return, a state outside a tag has an empty tag buffer. -/
theorem htStep_inv (start : Char) (target : List Char) (st : HtState) (ch : Char)
    (h : st.found = false → st.inTag = false → st.tag = []) :
    (htStep start target st ch).found = false →
      (htStep start target st ch).inTag = false →
      (htStep start target st ch).tag = [] := by
  unfold htStep
  split_ifs with h1 h2 h3 h4 h5 <;> intro hf hin <;> simp_all

/-- The `has_tag_raw` invariant holds after scanning any character
list. -/
theorem foldl_htStep_inv (start : Char) (target : List Char) (cs : List Char)
    (st : HtState) (h : st.found = false → st.inTag = false → st.tag = []) :
    (List.foldl (htStep start target) st cs).found = false →
      (List.foldl (htStep start target) st cs).inTag = false →
      (List.foldl (htStep start target) st cs).tag = [] := by
  induction cs generalizing st with
  | nil => exact h
  | cons c rest ih => exact ih (htStep start target st c) (htStep_inv start target st c h)

/-- Scanning a prefix that is empty or ends in a space either already
returned true or leaves `has_tag_raw` in a clean state. -/
theorem foldl_htStep_clean (start : Char) (target : List Char) (p : List Char)
    (hstart : start ≠ ' ') (hp : p = [] ∨ ∃ q, p = q ++ [' ']) :
    (List.foldl (htStep start target) ⟨false, [], false, ' '⟩ p).found = true
    ∨ List.foldl (htStep start target) ⟨false, [], false, ' '⟩ p =
        ⟨false, [], false, ' '⟩ := by
  rcases hp with rfl | ⟨q, rfl⟩
  · exact Or.inr rfl
  · rw [List.foldl_append]
    rcases hst : List.foldl (htStep start target) ⟨false, [], false, ' '⟩ q with
      ⟨fv, tagv, itv, lastv⟩
    have hinv := foldl_htStep_inv start target q ⟨false, [], false, ' '⟩
      (fun _ _ => rfl)
    rw [hst] at hinv
    simp only at hinv
    show (htStep start target ⟨fv, tagv, itv, lastv⟩ ' ').found = true
      ∨ htStep start target ⟨fv, tagv, itv, lastv⟩ ' ' = ⟨false, [], false, ' '⟩
    cases fv with
    | true =>
      left
      rw [show htStep start target ⟨true, tagv, itv, lastv⟩ ' ' =
        ⟨true, tagv, itv, lastv⟩ from by unfold htStep; rw [if_pos rfl]]
    | false =>
      unfold htStep
      dsimp only
      rw [if_neg (by simp), if_neg (fun h => hstart h.1.symm),
          if_neg (fun h => absurd h.2 (by decide))]
      cases itv with
      | true =>
        rw [if_pos ⟨rfl, by decide⟩]
        by_cases ht : tagv = target
        · rw [if_pos ht]
          exact Or.inl rfl
        · rw [if_neg ht]
          exact Or.inr rfl
      | false =>
        rw [if_neg (fun h => by rcases h.1 with h1 | h1)]
        right
        rw [hinv rfl rfl]

/-- Scanning the non-whitespace characters of a tag body keeps the scan
inside the tag and accumulates them all into the tag buffer, without an
early return. -/
theorem foldl_htStep_tag (start : Char) (target : List Char) (cs : List Char)
    (st : HtState) (hf : st.found = false) (hin : st.inTag = true)
    (hlast : st.last ≠ ' ') (hcs : ∀ c ∈ cs, isWhite c = false) :
    (List.foldl (htStep start target) st cs).found = false
    ∧ (List.foldl (htStep start target) st cs).tag = st.tag ++ cs := by
  induction cs generalizing st with
  | nil => exact ⟨hf, by simp⟩
  | cons c rest ih =>
    have hc := hcs c (List.mem_cons_self _ _)
    have hcne : c ≠ ' ' := fun he => by rw [he] at hc; exact absurd hc (by decide)
    have hstep : htStep start target st c =
        { st with tag := st.tag ++ [c], last := c } := by
      unfold htStep
      rw [if_neg (by simp [hf]), if_neg (fun h => hlast h.2), if_pos ⟨hin, hc⟩]
    rw [List.foldl_cons, hstep]
    obtain ⟨f1, t1⟩ := ih { st with tag := st.tag ++ [c], last := c } hf hin hcne
      (fun d hd => hcs d (List.mem_cons_of_mem _ hd))
    exact ⟨f1, by rw [t1]; simp⟩

/-- Claim C10, counterexample: the title `"+a +a"` ends in the tag token
`+a`, yet `Project "a"` is in the set returned by `tags()` — the earlier
occurrence (followed by a space) was collected — so the final tag is not
absent from the set for every such title. -/
theorem c10_trailing_tag_cex :
    TodoTag.Project ("a".data) ∈ tagsL ("+a +a".data)
    ∧ tagsL ("+a +a".data) = [TodoTag.Project ("a".data)]
    ∧ hasTagRaw '+' ("a".data) ("+a +a".data) = true := by decide

/-- Claim C10, amended: `tags()` collects only tags whose token is
followed by a whitespace character, so a trailing tag token contributes
nothing to the set — the set of `title ++ sigil ++ name` equals the set
of `title` alone (hence the final tag is absent unless an identical
earlier occurrence was collected) — while `has_tag_raw` (underlying
`has_project_tag` / `has_context_tag`) still returns true for the final
tag name. -/
theorem c10_trailing_tag_amended (p name : List Char) (sig : Char)
    (hsig : sig = '+' ∨ sig = '@')
    (hp : p = [] ∨ ∃ q, p = q ++ [' '])
    (hname : ∀ c ∈ name, isWhite c = false) :
    tagsL (p ++ sig :: name) = tagsL p
    ∧ hasTagRaw sig name (p ++ sig :: name) = true := by
  have hsigne : sig ≠ ' ' := by rcases hsig with rfl | rfl <;> decide
  constructor
  · unfold tagsL
    rw [List.foldl_append]
    obtain ⟨S, hS⟩ := foldl_tagStep_clean p hp
    rw [hS]
    have h1 := tagStep_sigil ⟨S, [], false, false, ' '⟩ sig hsig rfl
    rw [List.foldl_cons,
      foldl_tagStep_keep name _ (fun he => hsigne (h1.2.symm.trans he)) hname,
      h1.1]
  · unfold hasTagRaw
    rw [List.foldl_append]
    rcases foldl_htStep_clean sig name p hsigne hp with hfound | hclean
    · rw [htStep_found_frozen sig name (sig :: name) _ hfound]
      simp [hfound]
    · rw [hclean, List.foldl_cons,
        show htStep sig name ⟨false, [], false, ' '⟩ sig = ⟨false, [], true, sig⟩
          from by unfold htStep; rw [if_neg (by simp), if_pos ⟨rfl, rfl⟩]]
      obtain ⟨f1, t1⟩ := foldl_htStep_tag sig name name ⟨false, [], true, sig⟩
        rfl rfl hsigne hname
      simp [f1, t1]

/-- Witness for C10's amended theorem on the title `"fix @home"`: the
trailing context tag contributes nothing to `tags()` while
`has_tag_raw '@' "home"` still holds. -/
theorem c10_trailing_tag_amended_witness :
    tagsL ("fix @home".data) = tagsL ("fix ".data)
    ∧ hasTagRaw '@' ("home".data) ("fix @home".data) = true :=
  c10_trailing_tag_amended ("fix ".data) ("home".data) '@' (Or.inr rfl)
    (Or.inr ⟨"fix".data, rfl⟩) (by decide)
